import Mathlib

/-!
Shallow embedding of the core text-processing engines of the codegrammer
repository (file `src/App.jsx`): the CSS rule parser / optimizer
(`parseCSSRules`, `optimizeCSS`), the class-usage extractor
(`extractClassNames`) and the dialect-aware syntax validator
(`validateSyntax`).  Strings are modelled as `List Char`; the JavaScript
regular expressions are modelled by explicit scanners that reproduce the
engine's leftmost-match, greedy/lazy and backtracking behaviour.  JavaScript
objects used as string-keyed maps are modelled as insertion-ordered
association lists (JS objects enumerate non-index string keys in insertion
order, and assigning an existing key keeps its position).
-/

namespace CodeGrammer

/-- Convert a string literal to the character-list representation. -/
def str (s : String) : List Char := s.data

/-- Left brace character (written via its code point). -/
def obr : Char := Char.ofNat 123

/-- Right brace character (written via its code point). -/
def cbr : Char := Char.ofNat 125

/-- Single-quote character (written via its code point). -/
def qch : Char := Char.ofNat 39

/-- JavaScript whitespace as used by `\s`, `trim` and friends
(ASCII part: space, tab, line feed, carriage return, vertical tab, form feed). -/
def isJsWs (c : Char) : Bool :=
  c == ' ' || c == '\t' || c == '\n' || c == '\r' || c == '\x0b' || c == '\x0c'

/-- `String.prototype.trim`: drop whitespace from both ends. -/
def jsTrim (s : List Char) : List Char :=
  ((s.dropWhile isJsWs).reverse.dropWhile isJsWs).reverse

/-- `startsL s pat`: does `s` start with `pat` (JS `String.prototype.startsWith`). -/
def startsL : List Char → List Char → Bool
  | _, [] => true
  | [], _ :: _ => false
  | c :: cs, p :: ps => c == p && startsL cs ps

/-- `jsIncludes s pat`: does `s` contain `pat` as a substring
(JS `String.prototype.includes`). -/
def jsIncludes (s pat : List Char) : Bool :=
  match s with
  | [] => pat.isEmpty
  | _ :: cs => startsL s pat || jsIncludes cs pat

/-- `String.prototype.split` on a single separator character (keeps empty fields). -/
def splitOnChar (sep : Char) (s : List Char) : List (List Char) :=
  s.foldr
    (fun c acc =>
      if c == sep then [] :: acc
      else
        match acc with
        | [] => [[c]]
        | a :: as => (c :: a) :: as)
    [[]]

/-- Split `s` at the first occurrence of `sep`: returns the (sep-free) part
before it and the part after it, or `none` if `sep` does not occur. -/
def splitAtChar (sep : Char) : List Char → Option (List Char × List Char)
  | [] => none
  | c :: rest =>
    if c == sep then some ([], rest)
    else
      match splitAtChar sep rest with
      | some (a, b) => some (c :: a, b)
      | none => none

/-- Concatenate a list of lists. -/
def catLists {α : Type} (l : List (List α)) : List α := l.foldr (· ++ ·) []

/- ===============================================================
   CSS Rule Parser (`parseCSSRules` in App.jsx)
   =============================================================== -/

/-- Find the closing `*‍/` of a block comment; returns the suffix after it. -/
def findCommentClose : List Char → Option (List Char)
  | '*' :: '/' :: rest => some rest
  | _ :: rest => findCommentClose rest
  | [] => none

/-- One pass of the comment-stripping replace
(regex `/\*[\s\S]*?\*‍/` global, leftmost non-greedy), fuelled. -/
def stripCommentsF : Nat → List Char → List Char
  | 0, s => s
  | fuel + 1, s =>
    match s with
    | '/' :: '*' :: rest =>
      match findCommentClose rest with
      | some rest2 => stripCommentsF fuel rest2
      | none => '/' :: '*' :: rest
    | c :: rest => c :: stripCommentsF fuel rest
    | [] => []

/-- `cssText.replace(/\/\*[\s\S]*?\*\//g, '')`. -/
def stripComments (s : List Char) : List Char := stripCommentsF s.length s

/-- Lookahead `(?=\s*(@media|$))` of the media regex: after skipping
whitespace we must be at `@media` or at the end of the text. -/
def mediaAhead (s : List Char) : Bool :=
  let t := s.dropWhile isJsWs
  t.isEmpty || startsL t (str "@media")

/-- Lazy `([\s\S]*?)\}` with the media lookahead: find the first closing
brace whose suffix satisfies `mediaAhead`; earlier braces become part of the
captured content.  Returns (content, suffix after the brace). -/
def findMediaEndF : Nat → List Char → List Char → Option (List Char × List Char)
  | 0, _, _ => none
  | fuel + 1, acc, s =>
    match s with
    | [] => none
    | c :: rest =>
      if c == cbr then
        if mediaAhead rest then some (acc.reverse, rest)
        else findMediaEndF fuel (c :: acc) rest
      else findMediaEndF fuel (c :: acc) rest

/-- Try to match the media regex
`@media\s*([^{]+)\s*\{([\s\S]*?)\}(?=\s*(@media|$))` at the head of `s`.
Returns ((trimmed query, raw content), suffix after the match). -/
def tryMediaAt (s : List Char) : Option ((List Char × List Char) × List Char) :=
  if startsL s (str "@media") then
    let rest := s.drop 6
    match splitAtChar obr rest with
    | some (seg, afterBrace) =>
      if seg.isEmpty then none
      else
        match findMediaEndF (afterBrace.length + 1) [] afterBrace with
        | some (content, after) => some ((jsTrim seg, content), after)
        | none => none
    | none => none
  else none

/-- Global scan of the media regex: collects each match (as the exec loop
does) and removes the matched spans (as the subsequent `replace` does). -/
def scanMediaF : Nat → List Char → List (List Char × List Char) × List Char
  | 0, s => ([], s)
  | fuel + 1, s =>
    match s with
    | [] => ([], [])
    | c :: rest =>
      match tryMediaAt s with
      | some (qc, after) =>
        let (ms, out) := scanMediaF fuel after
        (qc :: ms, out)
      | none =>
        let (ms, out) := scanMediaF fuel rest
        (ms, c :: out)

/-- Try to match the rule regex `([^{]+)\{([^}]+)\}` at the head of `s`.
Returns ((raw selector, raw declarations), suffix after the match). -/
def tryRuleAt (s : List Char) : Option ((List Char × List Char) × List Char) :=
  match splitAtChar obr s with
  | some (sel, afterBrace) =>
    if sel.isEmpty then none
    else
      match splitAtChar cbr afterBrace with
      | some (body, after) =>
        if body.isEmpty then none else some ((sel, body), after)
      | none => none
  | none => none

/-- Global scan of the rule regex; selector and declarations are trimmed and
the rule is kept only when both are non-empty, exactly as in the source. -/
def scanRulesF : Nat → List Char → List (List Char × List Char)
  | 0, _ => []
  | _ + 1, [] => []
  | fuel + 1, c :: rest =>
    match tryRuleAt (c :: rest) with
    | some ((sel, body), after) =>
      let s' := jsTrim sel
      let b' := jsTrim body
      if s'.isEmpty || b'.isEmpty then scanRulesF fuel after
      else (s', b') :: scanRulesF fuel after
    | none => scanRulesF fuel rest

/-- Result of `parseCSSRules`: top-level rules (selector, declarations) and
media blocks (query, raw content). -/
structure ParsedCSS where
  rules : List (List Char × List Char)
  mediaRules : List (List Char × List Char)
deriving DecidableEq

/-- `parseCSSRules(cssText)`: strip comments, extract media blocks, then scan
the remaining text for `selector{declarations}` rules. -/
def parseCSSRules (cssText : List Char) : ParsedCSS :=
  let t := stripComments cssText
  let (medias, t2) := scanMediaF (t.length + 1) t
  { rules := scanRulesF (t2.length + 1) t2, mediaRules := medias }

/- ===============================================================
   CSS Optimizer (`optimizeCSS` in App.jsx)
   =============================================================== -/

/-- Lookup in an insertion-ordered association list (JS object read). -/
def lookupA {α : Type} : List (List Char × α) → List Char → Option α
  | [], _ => none
  | (k, v) :: rest, key => if k = key then some v else lookupA rest key

/-- JS object write `obj[key] = v`: update in place if the key exists
(keeping its position), otherwise append the new key at the end. -/
def upsertA {α : Type} : List (List Char × α) → List Char → α → List (List Char × α)
  | [], key, v => [(key, v)]
  | (k, w) :: rest, key, v =>
    if k = key then (k, v) :: rest else (k, w) :: upsertA rest key v

/-- `const [prop, val] = decl.split(':').map(s => s.trim()); if (prop && val) ...`:
split one declaration at colons, trim, and keep the first two fields when
both are non-empty. -/
def parseDecl (decl : List Char) : Option (List Char × List Char) :=
  match (splitOnChar ':' decl).map jsTrim with
  | p :: v :: _ => if p.isEmpty || v.isEmpty then none else some (p, v)
  | _ => none

/-- The property/value pairs a declaration string contributes, in order. -/
def declPairs (decls : List Char) : List (List Char × List Char) :=
  (splitOnChar ';' decls).filterMap parseDecl

/-- Fold the declarations of one rule occurrence into a property map
(`grouped[selector][prop] = val`, last write wins). -/
def applyDecls (m : List (List Char × List Char)) (decls : List Char) :
    List (List Char × List Char) :=
  (declPairs decls).foldl (fun acc pv => upsertA acc pv.1 pv.2) m

/-- Process one parsed rule: make sure the selector's group exists, then add
its declarations on top of the declarations accumulated so far. -/
def groupStep (g : List (List Char × List (List Char × List Char)))
    (r : List Char × List Char) : List (List Char × List (List Char × List Char)) :=
  upsertA g r.1 (applyDecls ((lookupA g r.1).getD []) r.2)

/-- Group a rule list by selector (the `rules.forEach` accumulation). -/
def groupRules (rs : List (List Char × List Char)) :
    List (List Char × List (List Char × List Char)) :=
  rs.foldl groupStep []

/-- Characters allowed in a class token (`[a-zA-Z0-9_-]`). -/
def isClassChar (c : Char) : Bool :=
  c.isAlpha || c.isDigit || c == '_' || c == '-'

/-- Global scan of `\.[a-zA-Z0-9_-]+`: the class tokens of a selector,
dot included (`selector.match(...)`, `[]` standing for a `null` result). -/
def classTokensF : Nat → List Char → List (List Char)
  | 0, _ => []
  | _ + 1, [] => []
  | fuel + 1, c :: rest =>
    if c == '.' then
      let run := rest.takeWhile isClassChar
      if run.isEmpty then classTokensF fuel rest
      else ('.' :: run) :: classTokensF fuel (rest.drop run.length)
    else classTokensF fuel rest

/-- Class tokens of a selector. -/
def classTokens (s : List Char) : List (List Char) := classTokensF (s.length + 1) s

/-- The unused-class filter for one selector: delete the group when the
selector has class tokens, at least one of them (dot removed) is not in the
used set, and the selector has no `:` (pseudo-class guard). -/
def keepSel (used : List (List Char)) (sel : List Char) : Bool :=
  match classTokens sel with
  | [] => true
  | cs =>
    let hasUnused := cs.any (fun cls => !(used.contains (cls.drop 1)))
    !(hasUnused && !(jsIncludes sel (str ":")))

/-- Apply the unused-class filter when a used-class set was supplied
(`if (usedClasses) { ... delete grouped[selector] ... }`). -/
def filterGrouped (used : Option (List (List Char)))
    (g : List (List Char × List (List Char × List Char))) :
    List (List Char × List (List Char × List Char)) :=
  match used with
  | none => g
  | some u => g.filter (fun kv => keepSel u kv.1)

/-- Serialize one group's property map: `prop:value;` for each property. -/
def serializeDecls (ps : List (List Char × List Char)) : List Char :=
  ps.foldl (fun acc pv => acc ++ pv.1 ++ (str ":") ++ pv.2 ++ (str ";")) []

/-- Serialize the grouped selectors: `selector{prop:value;...}` for each group. -/
def serializeGroups (g : List (List Char × List (List Char × List Char))) : List Char :=
  g.foldl (fun acc kv => acc ++ kv.1 ++ [obr] ++ serializeDecls kv.2 ++ [cbr]) []

/-- Output contributed by one media block: group and filter its inner rules
with the same logic, and emit `@media query{...}` only when at least one
group survives. -/
def mediaEmit (used : Option (List (List Char))) (qc : List Char × List Char) :
    List Char :=
  let mg := filterGrouped used (groupRules (parseCSSRules qc.2).rules)
  if mg.isEmpty then []
  else (str "@media ") ++ qc.1 ++ [obr] ++ serializeGroups mg ++ [cbr]

/-- `optimizeCSS(cssText, usedClasses)`: parse, group top-level rules by
selector, optionally filter by used classes, serialize, then append each
surviving media block. -/
def optimizeCSS (cssText : List Char) (usedClasses : Option (List (List Char))) :
    List Char :=
  let parsed := parseCSSRules cssText
  let grouped := filterGrouped usedClasses (groupRules parsed.rules)
  parsed.mediaRules.foldl (fun out qc => out ++ mediaEmit usedClasses qc)
    (serializeGroups grouped)

/- ===============================================================
   Class Usage Extractor (`extractClassNames` in App.jsx)
   =============================================================== -/

/-- A JS string-literal quote: `"` or the single quote. -/
def isQuote (c : Char) : Bool := c == '"' || c == qch

/-- Try to match `className=["']([^"']+)["']` at the head of `s`.
Returns (captured literal, suffix after the match). -/
def tryStringMatchAt (s : List Char) : Option (List Char × List Char) :=
  if startsL s (str "className=") then
    match s.drop 10 with
    | q1 :: rest =>
      if isQuote q1 then
        let body := rest.takeWhile (fun c => !isQuote c)
        if body.isEmpty then none
        else
          match rest.drop body.length with
          | q2 :: rest2 => if isQuote q2 then some (body, rest2) else none
          | [] => none
      else none
    | [] => none
  else none

/-- Try to match `className=\{['"]([^'"]+)['"]\}` at the head of `s`. -/
def tryTemplateMatchAt (s : List Char) : Option (List Char × List Char) :=
  if startsL s (str "className=") then
    match s.drop 10 with
    | b :: q1 :: rest =>
      if b == obr && isQuote q1 then
        let body := rest.takeWhile (fun c => !isQuote c)
        if body.isEmpty then none
        else
          match rest.drop body.length with
          | q2 :: b2 :: rest2 =>
            if isQuote q2 && b2 == cbr then some (body, rest2) else none
          | _ => none
      else none
    | _ => none
  else none

/-- For the conditional regex: with `[^}]*` bound to the first `i` characters
of `rest`, check that a quote, a non-empty quote-free run and a closing quote
follow.  Returns (captured literal, suffix after the closing quote). -/
def condTry (rest : List Char) (i : Nat) : Option (List Char × List Char) :=
  match rest.drop i with
  | q1 :: tail =>
    if isQuote q1 then
      let body := tail.takeWhile (fun c => !isQuote c)
      if body.isEmpty then none
      else
        match tail.drop body.length with
        | q2 :: rest2 => if isQuote q2 then some (body, rest2) else none
        | [] => none
    else none
  | [] => none

/-- Greedy backtracking of `[^}]*`: try the longest prefix first. -/
def condDescend (rest : List Char) : Nat → Option (List Char × List Char)
  | 0 => condTry rest 0
  | i + 1 =>
    match condTry rest (i + 1) with
    | some r => some r
    | none => condDescend rest i

/-- Try to match `className=\{[^}]*['"]([^'"]+)['"]` at the head of `s`. -/
def tryCondMatchAt (s : List Char) : Option (List Char × List Char) :=
  if startsL s (str "className=") then
    match s.drop 10 with
    | b :: rest =>
      if b == obr then
        condDescend rest (rest.takeWhile (fun c => !(c == cbr))).length
      else none
    | [] => none
  else none

/-- Global regex scan: collect the capture of each successive leftmost match. -/
def scanAllF (tryAt : List Char → Option (List Char × List Char)) :
    Nat → List Char → List (List Char)
  | 0, _ => []
  | _ + 1, [] => []
  | fuel + 1, c :: rest =>
    match tryAt (c :: rest) with
    | some (cap, after) => cap :: scanAllF tryAt fuel after
    | none => scanAllF tryAt fuel rest

/-- `split(/\s+/)`: the fields of `s` between maximal whitespace runs
(including empty leading/trailing fields), fuelled. -/
def wsFieldsF : Nat → List Char → List (List Char)
  | 0, s => [s]
  | fuel + 1, s =>
    let t := s.takeWhile (fun c => !isJsWs c)
    let r := s.drop t.length
    if r.isEmpty then [t]
    else t :: wsFieldsF fuel (r.dropWhile isJsWs)

/-- `split(/\s+/)` of a captured class literal. -/
def wsFields (s : List Char) : List (List Char) := wsFieldsF s.length s

/-- `Set.prototype.add`: append when not already present. -/
def addClass (set : List (List Char)) (c : List Char) : List (List Char) :=
  if set.contains c then set else set ++ [c]

/-- Add the whitespace-split tokens of one captured literal to the set,
skipping empty tokens (`cls && classes.add(cls)`). -/
def addSplit (set : List (List Char)) (captured : List Char) : List (List Char) :=
  (wsFields captured).foldl (fun s t => if t.isEmpty then s else addClass s t) set

/-- `extractClassNames(jsxCode)`: run the three scans in order, accumulating
into one insertion-ordered set. -/
def extractClassNames (code : List Char) : List (List Char) :=
  let s1 := (scanAllF tryStringMatchAt (code.length + 1) code).foldl addSplit []
  let s2 := (scanAllF tryTemplateMatchAt (code.length + 1) code).foldl addSplit s1
  (scanAllF tryCondMatchAt (code.length + 1) code).foldl addSplit s2

/- ===============================================================
   Syntax Validator (`validateSyntax` and `FILE_TYPES` in App.jsx)
   =============================================================== -/

/-- The supported file dialects (keys of `FILE_TYPES`). -/
inductive FileType
  | jsx | tsx | js | ts | php | html | vue
deriving DecidableEq

/-- `FILE_TYPES[fileType].name`. -/
def ftName : FileType → List Char
  | .jsx => str "JSX"
  | .tsx => str "TSX"
  | .js => str "JavaScript"
  | .ts => str "TypeScript"
  | .php => str "PHP"
  | .html => str "HTML"
  | .vue => str "Vue"

/-- One diagnostic pushed by the validator. -/
structure Diag where
  line : Nat
  message : List Char
  dtype : List Char
  suggestion : Option (List Char) := none
deriving DecidableEq

/-- `validateSyntax`'s result: the `errors` and `warnings` arrays. -/
structure VResult where
  errors : List Diag
  warnings : List Diag
deriving DecidableEq

/-- Quote a character list between single quotes, as the messages do. -/
def quoL (s : List Char) : List Char := qch :: s ++ [qch]

/-- Quote a string literal between single quotes. -/
def quo (s : String) : List Char := quoL (str s)

/-- Message of the wrong-comment-syntax error. -/
def msgHashComment : List Char :=
  str "Wrong comment syntax: Use " ++ quo "//" ++ str " or " ++ quo "/* */"
    ++ str " instead of " ++ quo "#"

/-- Message of the HTML-comment-in-script error. -/
def msgHtmlComment (ft : FileType) : List Char :=
  str "HTML comment syntax not allowed in " ++ ftName ft

/-- Message of the HTML-comment-in-PHP warning. -/
def msgPhpHtmlComment : List Char :=
  str "HTML comment in PHP file - make sure it" ++ [qch] ++ str "s in HTML context"

/-- Message of the JS-comment-in-HTML error. -/
def msgJsCommentInHtml : List Char :=
  str "JavaScript comment syntax not allowed in HTML (use <!-- -->)"

/-- Message of the `class=` attribute error. -/
def msgClassAttr (ft : FileType) : List Char :=
  str "Use " ++ quo "className" ++ str " instead of " ++ quo "class" ++ str " in "
    ++ ftName ft

/-- Message of the `for=` attribute error. -/
def msgForAttr (ft : FileType) : List Char :=
  str "Use " ++ quo "htmlFor" ++ str " instead of " ++ quo "for" ++ str " in "
    ++ ftName ft

/-- Message of the `className=` in markup/PHP error. -/
def msgClassNameAttr (ft : FileType) : List Char :=
  str "Use " ++ quo "class" ++ str " instead of " ++ quo "className" ++ str " in "
    ++ ftName ft

/-- Message of the possible-unclosed-tag warning. -/
def msgUnclosed : List Char := str "Possible unclosed tag or multi-line element"

/-- Message of the inline-style error. -/
def msgStyleString : List Char :=
  str "Style should be an object in JSX: style=\x7b\x7b...\x7d\x7d not style=\"...\""

/-- `event.charAt(2).toUpperCase() + event.slice(3)` for a wrong event token. -/
def camelOf (e : List Char) : List Char :=
  match e.drop 2 with
  | c :: rest => c.toUpper :: rest
  | [] => []

/-- Message of the event-handler-case error for one wrong event token. -/
def msgEvent (e : List Char) : List Char :=
  str "Use camelCase: " ++ quoL (camelOf e) ++ str " instead of " ++ quoL e

/-- Message of the missing-semicolon warning. -/
def msgSemicolon : List Char := str "Consider adding semicolon at end of statement"

/-- Message of the missing-PHP-tag warning. -/
def msgPhpTag : List Char := str "PHP file should start with <?php tag"

/-- The fixed list of lower-cased event-handler tokens. -/
def wrongEvents : List (List Char) :=
  [str "onclick=", str "onchange=", str "onsubmit="]

/-- Try to match `class=["'][^"']*["']` at the head of `s`; returns the
matched text. -/
def tryClassAttrAt (s : List Char) : Option (List Char) :=
  if startsL s (str "class=") then
    match s.drop 6 with
    | q1 :: rest =>
      if isQuote q1 then
        let body := rest.takeWhile (fun c => !isQuote c)
        match rest.drop body.length with
        | q2 :: _ =>
          if isQuote q2 then some (str "class=" ++ q1 :: body ++ [q2]) else none
        | [] => none
      else none
    | [] => none
  else none

/-- First match of `class=["'][^"']*["']` in `s` (`line.match(...)`). -/
def firstClassAttrF : Nat → List Char → Option (List Char)
  | 0, _ => none
  | _ + 1, [] => none
  | fuel + 1, c :: rest =>
    match tryClassAttrAt (c :: rest) with
    | some m => some m
    | none => firstClassAttrF fuel rest

/-- First match of the class-attribute regex in a line. -/
def firstClassAttr (s : List Char) : Option (List Char) :=
  firstClassAttrF (s.length + 1) s

/-- `String.prototype.replace` with a plain-string pattern: replace the first
occurrence only. -/
def replaceFirstF : Nat → List Char → List Char → List Char → List Char
  | 0, s, _, _ => s
  | fuel + 1, s, pat, rep =>
    if startsL s pat then rep ++ s.drop pat.length
    else
      match s with
      | [] => []
      | c :: rest => c :: replaceFirstF fuel rest pat rep

/-- Replace the first occurrence of `pat` in `s` by `rep`. -/
def replaceFirst (s pat rep : List Char) : List Char :=
  replaceFirstF (s.length + 1) s pat rep

/-- For the open-tag regex `<[a-zA-Z][^>]*[^\/]>`: with `[^>]*` bound to the
first `i` characters of `rest`, the next character must not be `/` and the
one after it must be `>`.  Returns the suffix after the match. -/
def openTry (rest : List Char) (i : Nat) : Option (List Char) :=
  match rest.drop i with
  | y :: z :: r2 =>
    if z == '>' then if y == '/' then none else some r2 else none
  | _ => none

/-- Greedy backtracking of `[^>]*` in the open-tag regex. -/
def openDescend (rest : List Char) : Nat → Option (List Char)
  | 0 => openTry rest 0
  | i + 1 =>
    match openTry rest (i + 1) with
    | some r => some r
    | none => openDescend rest i

/-- Try to match `<[a-zA-Z][^>]*[^\/]>` at the head of `s`. -/
def tryOpenTagAt : List Char → Option (List Char)
  | '<' :: l :: rest =>
    if l.isAlpha then openDescend rest (rest.takeWhile (fun c => !(c == '>'))).length
    else none
  | _ => none

/-- Try to match `<\/[a-zA-Z][^>]*>` at the head of `s`. -/
def tryCloseTagAt : List Char → Option (List Char)
  | '<' :: '/' :: l :: rest =>
    if l.isAlpha then
      let run := rest.takeWhile (fun c => !(c == '>'))
      match rest.drop run.length with
      | '>' :: r2 => some r2
      | _ => none
    else none
  | _ => none

/-- For the self-closing regex `<[a-zA-Z][^>]*\/>`: with `[^>]*` bound to the
first `i` characters of `rest`, `/>` must follow. -/
def selfTry (rest : List Char) (i : Nat) : Option (List Char) :=
  match rest.drop i with
  | '/' :: '>' :: r2 => some r2
  | _ => none

/-- Greedy backtracking of `[^>]*` in the self-closing regex. -/
def selfDescend (rest : List Char) : Nat → Option (List Char)
  | 0 => selfTry rest 0
  | i + 1 =>
    match selfTry rest (i + 1) with
    | some r => some r
    | none => selfDescend rest i

/-- Try to match `<[a-zA-Z][^>]*\/>` at the head of `s`. -/
def trySelfCloseAt : List Char → Option (List Char)
  | '<' :: l :: rest =>
    if l.isAlpha then selfDescend rest (rest.takeWhile (fun c => !(c == '>'))).length
    else none
  | _ => none

/-- Count the matches of a global regex scan (`(line.match(r) || []).length`). -/
def countTagsF (tryAt : List Char → Option (List Char)) : Nat → List Char → Nat
  | 0, _ => 0
  | _ + 1, [] => 0
  | fuel + 1, c :: rest =>
    match tryAt (c :: rest) with
    | some after => countTagsF tryAt fuel after + 1
    | none => countTagsF tryAt fuel rest

/-- The condition of the possible-unclosed-tag warning:
`openTags > closeTags + selfClosing && !line.includes('>') && line.includes('<')`. -/
def tagWarnGuard (line : List Char) : Bool :=
  let o := countTagsF tryOpenTagAt (line.length + 1) line
  let c := countTagsF tryCloseTagAt (line.length + 1) line
  let sc := countTagsF trySelfCloseAt (line.length + 1) line
  decide (c + sc < o) && !(jsIncludes line (str ">")) && jsIncludes line (str "<")

/-- The statement keywords of the missing-semicolon regex. -/
def stmtKws : List (List Char) :=
  [str "const", str "let", str "var", str "return", str "import", str "export",
   str "throw"]

/-- A character matched by `.` (anything except line terminators). -/
def isDotChar (c : Char) : Bool :=
  !(c == '\n' || c == '\r' || c == '\u2028' || c == '\u2029')

/-- A character excluded by the final `[^;{}\[\]]` of the semicolon regex. -/
def isTermBracket (c : Char) : Bool :=
  c == ';' || c == obr || c == cbr || c == '[' || c == ']'

/-- Can `d` be split as `.+` followed by one non-terminator character? -/
def semiOk (d : List Char) : Bool :=
  match d.reverse with
  | last :: init => !isTermBracket last && !init.isEmpty && init.all isDotChar
  | [] => false

/-- Backtracking of `\s+` (at least one whitespace character) before `.+`. -/
def semiDescend (rest : List Char) : Nat → Bool
  | 0 => false
  | k + 1 => semiOk (rest.drop (k + 1)) || semiDescend rest k

/-- `trimmed.match(/^(const|let|var|return|import|export|throw)\s+.+[^;{}\[\]]$/)`
as a Boolean test. -/
def semicolonTest (t : List Char) : Bool :=
  stmtKws.any fun kw =>
    startsL t kw &&
      (let rest := t.drop kw.length
       semiDescend rest (rest.takeWhile isJsWs).length)

/-- Is the dialect one of the C-comment script family jsx/tsx/js/ts? -/
def isScriptFam (ft : FileType) : Bool :=
  ft = FileType.jsx || ft = FileType.tsx || ft = FileType.js || ft = FileType.ts

/-- Is the dialect jsx or tsx? -/
def isComponentFam (ft : FileType) : Bool :=
  ft = FileType.jsx || ft = FileType.tsx

/-- Is the dialect one of the tag-based family jsx/tsx/html/vue? -/
def isTagFam (ft : FileType) : Bool :=
  ft = FileType.jsx || ft = FileType.tsx || ft = FileType.html || ft = FileType.vue

/-- The errors pushed for one line, in source order of the checks. -/
def lineErrors (ft : FileType) (lineNum : Nat) (line : List Char) : List Diag :=
  (if isScriptFam ft && startsL (jsTrim line) (str "#") && !startsL (jsTrim line) (str "#!/")
   then [{ line := lineNum, message := msgHashComment, dtype := str "comment" }]
   else [])
  ++ (if isScriptFam ft && jsIncludes (jsTrim line) (str "<!--")
      then [{ line := lineNum, message := msgHtmlComment ft, dtype := str "comment" }]
      else [])
  ++ (if ft = FileType.html &&
         (startsL (jsTrim line) (str "//") ||
           (startsL (jsTrim line) (str "/*") && !jsIncludes (jsTrim line) (str "<script")))
      then [{ line := lineNum, message := msgJsCommentInHtml, dtype := str "comment" }]
      else [])
  ++ (if isComponentFam ft && jsIncludes line (str "class=") &&
         !jsIncludes line (str "className=")
      then
        match firstClassAttr line with
        | some m =>
          [{ line := lineNum, message := msgClassAttr ft, dtype := str "attribute",
             suggestion := some (replaceFirst m (str "class=") (str "className=")) }]
        | none => []
      else [])
  ++ (if isComponentFam ft && jsIncludes line (str "for=")
      then [{ line := lineNum, message := msgForAttr ft, dtype := str "attribute" }]
      else [])
  ++ (if (ft = FileType.html || ft = FileType.php) && jsIncludes line (str "className=")
      then [{ line := lineNum, message := msgClassNameAttr ft, dtype := str "attribute" }]
      else [])
  ++ (if isComponentFam ft && jsIncludes line (str "style=\"")
      then [{ line := lineNum, message := msgStyleString, dtype := str "attribute" }]
      else [])
  ++ (if isComponentFam ft
      then
        (wrongEvents.filter fun e => jsIncludes (line.map Char.toLower) e).map fun e =>
          { line := lineNum, message := msgEvent e, dtype := str "attribute" }
      else [])

/-- The warnings pushed for one line, in source order of the checks
(`code` is the whole source, used by the PHP-tag check). -/
def lineWarnings (code : List Char) (ft : FileType) (lineNum : Nat)
    (line : List Char) : List Diag :=
  (if ft = FileType.php && jsIncludes (jsTrim line) (str "<!--") &&
      !jsIncludes (jsTrim line) (str "?>")
   then [{ line := lineNum, message := msgPhpHtmlComment, dtype := str "comment" }]
   else [])
  ++ (if isTagFam ft && tagWarnGuard line
      then [{ line := lineNum, message := msgUnclosed, dtype := str "structure" }]
      else [])
  ++ (if isScriptFam ft && !(jsTrim line).isEmpty && !startsL (jsTrim line) (str "//") &&
         !startsL (jsTrim line) (str "/*") && semicolonTest (jsTrim line) &&
         !jsIncludes (jsTrim line) (str "=>")
      then [{ line := lineNum, message := msgSemicolon, dtype := str "style" }]
      else [])
  ++ (if ft = FileType.php && !jsIncludes code (str "<?php") && !(jsTrim code).isEmpty
      then [{ line := 1, message := msgPhpTag, dtype := str "structure" }]
      else [])

/-- `code.split('\n')`. -/
def splitLines (code : List Char) : List (List Char) := splitOnChar '\n' code

/-- `validateSyntax(code, fileType)`: run every check on every 1-indexed line. -/
def validateSyntax (code : List Char) (ft : FileType) : VResult :=
  let lines := splitLines code
  { errors := catLists (lines.enum.map fun p => lineErrors ft (p.1 + 1) p.2)
    warnings := catLists (lines.enum.map fun p => lineWarnings code ft (p.1 + 1) p.2) }

/- ===============================================================
   Observation helpers and concrete inputs used by the claims
   =============================================================== -/

/-- The value the grouped map assigns to property `p` of selector `sel`. -/
def groupLookup (g : List (List Char × List (List Char × List Char)))
    (sel p : List Char) : Option (List Char) :=
  (lookupA g sel).bind fun m => lookupA m p

/-- The declaration strings of the rule occurrences with selector `s`, in order. -/
def declsFor (s : List Char) (rs : List (List Char × List Char)) : List (List Char) :=
  (rs.filter fun r => decide (r.1 = s)).map Prod.snd

/-- Last-write-wins accumulation of one occurrence's value for property `p`. -/
def lastValStep (p : List Char) (acc : Option (List Char)) (d : List Char) :
    Option (List Char) :=
  match lookupA (applyDecls [] d) p with
  | some v => some v
  | none => acc

/-- Two occurrences of selector `.a`, merged by the optimizer. -/
def cssDup : List Char := str ".a\x7bcolor:red\x7d.a\x7bcolor:blue\x7d"

/-- Rules `.a{color:red}` and `.b{color:blue}` in that order. -/
def cssAB : List Char := str ".a\x7bcolor:red\x7d.b\x7bcolor:blue\x7d"

/-- Rules `.b{color:blue}` and `.a{color:red}` in that order. -/
def cssBA : List Char := str ".b\x7bcolor:blue\x7d.a\x7bcolor:red\x7d"

/-- A pseudo-class selector whose only class token is unused. -/
def cssHover : List Char := str ".unused:hover\x7bcolor:red\x7d"

/-- A media block around a single class rule. -/
def cssMedia : List Char := str "@media (max-width:600px)\x7b.x\x7bcolor:red\x7d\x7d"

/-- CSS whose declaration value contains `@media`, with trailing text. -/
def cssAtValue : List Char := str ".a\x7bp:@media q\x7d.b\x7br:s\x7dx"

/-- Duplicate-selector CSS whose optimized form is a fixed point. -/
def cssMerged : List Char := str ".a\x7bcolor:red\x7d.a\x7bmargin:0\x7d.b\x7bcolor:blue\x7d"

/-- The used-class set {a, b}. -/
def usedAB : Option (List (List Char)) := some [str "a", str "b"]

/-- The used-class set {x}. -/
def usedX : Option (List (List Char)) := some [str "x"]

/-- The markup fragment `className={cond ? 'c' : 'd'}`. -/
def condAttr : List Char :=
  str "className=\x7bcond ? " ++ [qch] ++ str "c" ++ [qch] ++ str " : " ++ [qch]
    ++ str "d" ++ [qch] ++ [cbr]

/-- Markup containing `className="a b"` and `className={cond ? 'c' : 'd'}`. -/
def ex6 : List Char :=
  str "<div className=\"a b\"><span " ++ condAttr ++ str " />"

/-- A line using the camel-cased handler `onClick`. -/
def lineOnClick : List Char := str "<button onClick=\"x\">"

/-- A line using the lower-cased handler `onclick`. -/
def lineOnclick : List Char := str "<button onclick=\"x\">"

/-- A two-line PHP source with no `<?php` tag. -/
def phpTwoLines : List Char := str "a\nb"

/-- A line using the idiomatic `htmlFor=` attribute. -/
def lineHtmlFor : List Char := str "<label htmlFor=\"x\">"

/-- A line using the markup `for=` attribute. -/
def lineFor : List Char := str "<label for=\"x\">"

/- ===============================================================
   Theorems
   =============================================================== -/

/-- C2 counterexample: `optimize` is not idempotent.  When a declaration
value contains `@media`, the serialized output re-parses differently: the
first pass of `.a{p:@media q}.b{r:s}x` with used classes {a, b} yields
`.a{p:@media q;}.b{r:s;}`, and the second pass yields the empty string. -/
theorem optimize_not_idempotent :
    optimizeCSS (optimizeCSS cssAtValue usedAB) usedAB ≠ optimizeCSS cssAtValue usedAB := by
  decide

/-- C2 amended: idempotence holds on well-formed inputs whose serialized
output re-parses to the same rules — e.g. the duplicate-selector input
`.a{color:red}.a{margin:0}.b{color:blue}` with used classes {a, b}, and the
media-block input with used classes {x}. -/
theorem optimize_fixed_point_examples :
    optimizeCSS (optimizeCSS cssMerged usedAB) usedAB = optimizeCSS cssMerged usedAB ∧
    optimizeCSS (optimizeCSS cssMedia usedX) usedX = optimizeCSS cssMedia usedX := by
  constructor
  · decide
  · decide

/-- C5: the media block `@media (max-width:600px){.x{color:red}}` is
reproduced (in compact serialized form) when `x` is used, and the whole
block is absent from the output when the used-class set is empty. -/
theorem media_block_preservation :
    optimizeCSS cssMedia usedX = str "@media (max-width:600px)\x7b.x\x7bcolor:red;\x7d\x7d" ∧
    optimizeCSS cssMedia (some []) = [] := by
  constructor
  · decide
  · decide

/-- C6 counterexample: the extractor does not return {a, b, c, d} on markup
containing `className="a b"` and `className={cond ? 'c' : 'd'}` — the
literal `c` is not extracted, because the greedy `[^}]*` of the conditional
regex consumes up to the last quoted literal of the braces. -/
theorem extract_misses_first_branch :
    jsIncludes ex6 (str "className=\"a b\"") = true ∧
    jsIncludes ex6 condAttr = true ∧
    (extractClassNames ex6).contains (str "c") = false := by
  refine ⟨by decide, by decide, by decide⟩

/-- C6 amended: on that markup the extractor returns exactly {a, b, d}:
both tokens of the quoted literal, and only the last quoted literal of the
conditional expression. -/
theorem extract_result_abd : extractClassNames ex6 = [str "a", str "b", str "d"] := by
  decide

/-- C7: the event-handler check lower-cases the whole line before the
substring test, so the camel-cased `onClick="x"` line is also reported (one
error), and the suggested token in the message is `Click=` — the `on` prefix
is dropped by `charAt(2).toUpperCase() + slice(3)` — not `onClick=`. -/
theorem event_handler_check_behaviour :
    (validateSyntax lineOnClick FileType.jsx).errors =
      [{ line := 1, message := msgEvent (str "onclick="), dtype := str "attribute" }] ∧
    (validateSyntax lineOnclick FileType.jsx).errors =
      [{ line := 1, message := msgEvent (str "onclick="), dtype := str "attribute" }] ∧
    camelOf (str "onclick=") = str "Click=" ∧
    jsIncludes (msgEvent (str "onclick=")) (str "onClick=") = false := by
  refine ⟨by decide, by decide, by decide, by decide⟩

/-- C8: the missing-PHP-tag warning is pushed once per line, all anchored at
line 1: a two-line source without `<?php` gets two identical warnings, a
one-line source gets exactly one. -/
theorem php_tag_warning_per_line :
    (validateSyntax phpTwoLines FileType.php).warnings =
      [{ line := 1, message := msgPhpTag, dtype := str "structure" },
       { line := 1, message := msgPhpTag, dtype := str "structure" }] ∧
    (validateSyntax (str "a") FileType.php).warnings =
      [{ line := 1, message := msgPhpTag, dtype := str "structure" }] := by
  refine ⟨by decide, by decide⟩

/-- A selector with no class token is never deleted by the filter. -/
theorem keepSel_of_no_class (u : List (List Char)) (sel : List Char)
    (h : classTokens sel = []) : keepSel u sel = true := by
  unfold keepSel
  rw [h]

/-- A selector containing `:` is never deleted by the filter. -/
theorem keepSel_of_colon (u : List (List Char)) (sel : List Char)
    (h : jsIncludes sel (str ":") = true) : keepSel u sel = true := by
  unfold keepSel
  cases hc : classTokens sel with
  | nil => rfl
  | cons c cs => simp [h]

/-- C3: with used classes {a}, the optimizer keeps `.a{color:red}` and drops
`.b{color:blue}` in either rule order; and (universally) a selector group
whose selector has no class token survives the filter for every used-class
set, including an absent one. -/
theorem class_filter_keeps_used_drops_unused :
    optimizeCSS cssAB (some [str "a"]) = str ".a\x7bcolor:red;\x7d" ∧
    optimizeCSS cssBA (some [str "a"]) = str ".a\x7bcolor:red;\x7d" ∧
    jsIncludes (optimizeCSS cssAB (some [str "a"])) (str ".b") = false ∧
    ∀ (u : Option (List (List Char)))
      (g : List (List Char × List (List Char × List Char)))
      (sel : List Char) (m : List (List Char × List Char)),
      classTokens sel = [] → (sel, m) ∈ g → (sel, m) ∈ filterGrouped u g := by
  refine ⟨by decide, by decide, by decide, ?_⟩
  intro u g sel m h hm
  cases u with
  | none => exact hm
  | some u' => exact List.mem_filter.mpr ⟨hm, keepSel_of_no_class u' sel h⟩

/-- C3 witness: the element-selector group `div` survives filtering with the
empty used-class set. -/
theorem class_filter_keeps_used_drops_unused_witness :
    (str "div", [(str "margin", str "0")]) ∈
      filterGrouped (some []) [(str "div", [(str "margin", str "0")])] :=
  class_filter_keeps_used_drops_unused.2.2.2 (some [])
    [(str "div", [(str "margin", str "0")])] (str "div")
    [(str "margin", str "0")] (by decide) (by decide)

/-- C4: `.unused:hover{color:red}` is kept by the optimizer even with the
empty used-class set; and (universally) a group whose selector contains `:`
survives the filter for every used-class set. -/
theorem pseudo_class_exemption :
    optimizeCSS cssHover (some []) = str ".unused:hover\x7bcolor:red;\x7d" ∧
    ∀ (u : Option (List (List Char)))
      (g : List (List Char × List (List Char × List Char)))
      (sel : List Char) (m : List (List Char × List Char)),
      jsIncludes sel (str ":") = true → (sel, m) ∈ g → (sel, m) ∈ filterGrouped u g := by
  refine ⟨by decide, ?_⟩
  intro u g sel m h hm
  cases u with
  | none => exact hm
  | some u' => exact List.mem_filter.mpr ⟨hm, keepSel_of_colon u' sel h⟩

/-- C4 witness: the pseudo-class group `.unused:hover` survives filtering
with the empty used-class set. -/
theorem pseudo_class_exemption_witness :
    (str ".unused:hover", [(str "color", str "red")]) ∈
      filterGrouped (some []) [(str ".unused:hover", [(str "color", str "red")])] :=
  pseudo_class_exemption.2 (some [])
    [(str ".unused:hover", [(str "color", str "red")])] (str ".unused:hover")
    [(str "color", str "red")] (by decide) (by decide)

/-- Lookup after a JS object write: the written key reads back the new
value, other keys are unchanged. -/
theorem lookupA_upsertA {α : Type} (g : List (List Char × α)) (k : List Char) (v : α)
    (q : List Char) :
    lookupA (upsertA g k v) q = if k = q then some v else lookupA g q := by
  induction g with
  | nil => rfl
  | cons kv rest ih =>
    obtain ⟨k', w⟩ := kv
    by_cases hk : k' = k
    · subst hk
      simp only [upsertA, if_pos rfl, lookupA]
      by_cases hq : k' = q <;> simp [hq, lookupA]
    · simp only [upsertA, if_neg hk, lookupA]
      by_cases hq : k' = q
      · subst hq
        have hkq : ¬(k = k') := fun h => hk h.symm
        simp [hkq, lookupA]
      · simp [hq, ih]

/-- A JS object write keeps the key list unchanged when the key exists and
appends the key otherwise. -/
theorem keys_upsertA {α : Type} (g : List (List Char × α)) (k : List Char) (v : α) :
    (upsertA g k v).map Prod.fst =
      if k ∈ g.map Prod.fst then g.map Prod.fst else g.map Prod.fst ++ [k] := by
  induction g with
  | nil => simp [upsertA]
  | cons kv rest ih =>
    obtain ⟨k', w⟩ := kv
    by_cases hk : k' = k
    · subst hk
      have h1 : upsertA ((k', w) :: rest) k' v = (k', v) :: rest := by
        simp [upsertA]
      have hmem : k' ∈ List.map Prod.fst ((k', w) :: rest) := by
        rw [List.map_cons]
        exact List.mem_cons_self _ _
      rw [h1, if_pos hmem]
      simp
    · simp only [upsertA, if_neg hk, List.map_cons]
      by_cases hmem : k ∈ rest.map Prod.fst
      · have : k ∈ k' :: rest.map Prod.fst := List.mem_cons_of_mem _ hmem
        simp [ih, hmem, this]
      · have hnotc : ¬(k ∈ k' :: rest.map Prod.fst) := by
          intro hc
          rcases List.mem_cons.mp hc with h | h
          · exact hk h.symm
          · exact hmem h
        simp [ih, hmem, hnotc]

/-- JS object writes preserve distinctness of the key list. -/
theorem nodup_keys_upsertA {α : Type} {g : List (List Char × α)}
    (h : (g.map Prod.fst).Nodup) (k : List Char) (v : α) :
    ((upsertA g k v).map Prod.fst).Nodup := by
  rw [keys_upsertA]
  by_cases hmem : k ∈ g.map Prod.fst
  · simp [hmem, h]
  · simp [hmem, List.nodup_append, h, List.disjoint_singleton]

/-- The written key is in the key list after a write. -/
theorem mem_keys_upsertA_self {α : Type} (g : List (List Char × α)) (k : List Char)
    (v : α) : k ∈ (upsertA g k v).map Prod.fst := by
  rw [keys_upsertA]
  by_cases hmem : k ∈ g.map Prod.fst <;> simp [hmem]

/-- Existing keys remain in the key list after a write. -/
theorem mem_keys_upsertA_of_mem {α : Type} {g : List (List Char × α)} {q : List Char}
    (h : q ∈ g.map Prod.fst) (k : List Char) (v : α) :
    q ∈ (upsertA g k v).map Prod.fst := by
  rw [keys_upsertA]
  by_cases hmem : k ∈ g.map Prod.fst <;> simp [hmem, h]

/-- Grouping folds preserve distinctness of the selector list. -/
theorem nodup_keys_groupFold (rs : List (List Char × List Char)) :
    ∀ g, (g.map Prod.fst).Nodup → ((rs.foldl groupStep g).map Prod.fst).Nodup := by
  induction rs with
  | nil => intro g h; exact h
  | cons r rs ih =>
    intro g h
    rw [List.foldl_cons]
    exact ih _ (nodup_keys_upsertA h _ _)

/-- Selectors present in the accumulator stay present through the fold. -/
theorem mem_keys_groupFold_of_mem {q : List Char} (rs : List (List Char × List Char)) :
    ∀ g, q ∈ g.map Prod.fst → q ∈ ((rs.foldl groupStep g).map Prod.fst) := by
  induction rs with
  | nil => intro g h; exact h
  | cons r rs ih =>
    intro g h
    rw [List.foldl_cons]
    exact ih _ (mem_keys_upsertA_of_mem h _ _)

/-- Every rule's selector ends up in the grouped key list. -/
theorem mem_keys_groupFold_of_sel {s : List Char} (rs : List (List Char × List Char)) :
    ∀ g, s ∈ rs.map Prod.fst → s ∈ ((rs.foldl groupStep g).map Prod.fst) := by
  induction rs with
  | nil => intro g h; exact absurd h (by simp)
  | cons r rs ih =>
    intro g h
    rw [List.foldl_cons]
    rcases List.mem_cons.mp h with h1 | h1
    · subst h1
      exact mem_keys_groupFold_of_mem rs _ (mem_keys_upsertA_self g _ _)
    · exact ih _ h1

/-- In a duplicate-free list every member occurs exactly once. -/
theorem count_keys_eq_one {s : List Char} :
    ∀ l : List (List Char), l.Nodup → s ∈ l → l.count s = 1 := by
  intro l hn hm
  induction l with
  | nil => cases hm
  | cons a t ih =>
    rw [List.count_cons]
    rcases List.mem_cons.mp hm with h | h
    · subst h
      have hnotin : s ∉ t := (List.nodup_cons.mp hn).1
      rw [List.count_eq_zero.mpr hnotin]
      simp
    · have hne : ¬(a == s) = true := by
        intro he
        exact absurd h (beq_iff_eq.mp he ▸ (List.nodup_cons.mp hn).1)
      rw [ih (List.nodup_cons.mp hn).2 h]
      simp [hne]

/-- Folding property writes over an accumulator: the result of the fold from
the empty accumulator overrides; otherwise the accumulator shows through. -/
theorem lookupA_foldl_upsertA (ps : List (List Char × List Char)) :
    ∀ (m : List (List Char × List Char)) (p : List Char),
      lookupA (ps.foldl (fun acc pv => upsertA acc pv.1 pv.2) m) p =
        match lookupA (ps.foldl (fun acc pv => upsertA acc pv.1 pv.2) []) p with
        | some v => some v
        | none => lookupA m p := by
  induction ps with
  | nil => intro m p; simp [lookupA]
  | cons q ps ih =>
    intro m p
    rw [List.foldl_cons, List.foldl_cons, ih (upsertA m q.1 q.2) p,
      ih (upsertA [] q.1 q.2) p]
    cases hx : lookupA (ps.foldl (fun acc pv => upsertA acc pv.1 pv.2) []) p with
    | some v => rfl
    | none =>
      simp only
      rw [lookupA_upsertA, lookupA_upsertA]
      by_cases hq : q.1 = p <;> simp [hq, lookupA]

/-- The grouping fold realizes last-write-wins at the property level: the
value seen for (selector, property) is the fold of the per-occurrence values
of the occurrences with that selector, later occurrences overriding. -/
theorem groupLookup_groupFold (s p : List Char) (rs : List (List Char × List Char)) :
    ∀ g, groupLookup (rs.foldl groupStep g) s p =
      (declsFor s rs).foldl (lastValStep p) (groupLookup g s p) := by
  induction rs with
  | nil => intro g; rfl
  | cons r rs ih =>
    intro g
    rw [List.foldl_cons, ih (groupStep g r)]
    by_cases hr : r.1 = s
    · have hd : declsFor s (r :: rs) = r.2 :: declsFor s rs := by
        simp [declsFor, List.filter_cons, hr]
      rw [hd, List.foldl_cons]
      congr 1
      show groupLookup (upsertA g r.1 (applyDecls ((lookupA g r.1).getD []) r.2)) s p =
        lastValStep p (groupLookup g s p) r.2
      unfold groupLookup lastValStep
      rw [hr, lookupA_upsertA, if_pos rfl]
      show lookupA ((declPairs r.2).foldl (fun acc pv => upsertA acc pv.1 pv.2)
        ((lookupA g s).getD [])) p = _
      rw [lookupA_foldl_upsertA]
      cases hg : lookupA g s with
      | some m => simp [Option.getD, applyDecls]
      | none => simp [Option.getD, applyDecls, lookupA]
    · have hd : declsFor s (r :: rs) = declsFor s rs := by
        simp [declsFor, List.filter_cons, hr]
      rw [hd]
      congr 1
      show groupLookup (upsertA g r.1 (applyDecls ((lookupA g r.1).getD []) r.2)) s p =
        groupLookup g s p
      unfold groupLookup
      rw [lookupA_upsertA, if_neg hr]

/-- Appending emissions in a fold factors into the initial value followed by
the concatenated emissions. -/
theorem foldl_append_emit {α : Type} (f : α → List Char) (l : List α) :
    ∀ init : List Char,
      l.foldl (fun out x => out ++ f x) init = init ++ catLists (l.map f) := by
  induction l with
  | nil => intro init; simp [catLists]
  | cons x l ih =>
    intro init
    rw [List.foldl_cons, ih]
    simp [catLists]

/-- The optimizer output decomposes as the serialized (filtered) top-level
groups followed by the emissions of the media blocks, in order. -/
theorem optimizeCSS_decomp (css : List Char) (u : Option (List (List Char))) :
    optimizeCSS css u =
      serializeGroups (filterGrouped u (groupRules (parseCSSRules css).rules)) ++
        catLists ((parseCSSRules css).mediaRules.map (mediaEmit u)) := by
  unfold optimizeCSS
  exact foldl_append_emit (mediaEmit u) (parseCSSRules css).mediaRules _

/-- C1: when the same selector occurs in exactly two top-level parsed rule
occurrences, the optimizer's grouped map contains that selector exactly once
(so the serialized output emits exactly one rule group for it — the reading
of "one occurrence" here, since a raw substring count can also hit longer
selectors or values), and for a property present in both occurrences the
grouped value is the later occurrence's value (last write wins).  The third
conjunct ties the grouped map to the string `optimizeCSS` returns. -/
theorem duplicate_selector_merge (css s d1 d2 p v1 v2 : List Char)
    (hocc : (parseCSSRules css).rules.filter (fun r => decide (r.1 = s)) =
      [(s, d1), (s, d2)])
    (_hp1 : lookupA (applyDecls [] d1) p = some v1)
    (hp2 : lookupA (applyDecls [] d2) p = some v2) :
    ((groupRules (parseCSSRules css).rules).map Prod.fst).count s = 1 ∧
    groupLookup (groupRules (parseCSSRules css).rules) s p = some v2 ∧
    optimizeCSS css none =
      serializeGroups (groupRules (parseCSSRules css).rules) ++
        catLists ((parseCSSRules css).mediaRules.map (mediaEmit none)) := by
  have hmemf : (s, d1) ∈ (parseCSSRules css).rules.filter (fun r => decide (r.1 = s)) := by
    rw [hocc]; simp
  have hmem : (s, d1) ∈ (parseCSSRules css).rules := List.mem_of_mem_filter hmemf
  have hsel : s ∈ (parseCSSRules css).rules.map Prod.fst :=
    List.mem_map.mpr ⟨(s, d1), hmem, rfl⟩
  refine ⟨?_, ?_, ?_⟩
  · exact count_keys_eq_one _
      (nodup_keys_groupFold _ [] (by simp))
      (mem_keys_groupFold_of_sel _ [] hsel)
  · show groupLookup ((parseCSSRules css).rules.foldl groupStep []) s p = some v2
    rw [groupLookup_groupFold]
    have hds : declsFor s (parseCSSRules css).rules = [d1, d2] := by
      unfold declsFor
      rw [hocc]
      rfl
    rw [hds]
    show lastValStep p (lastValStep p (groupLookup [] s p) d1) d2 = some v2
    unfold lastValStep
    rw [hp2]
  · rw [optimizeCSS_decomp]
    rfl

/-- C1 witness: `.a{color:red}.a{color:blue}` has two occurrences of `.a`;
the merged group appears once and maps `color` to the later `blue`. -/
theorem duplicate_selector_merge_witness :
    ((groupRules (parseCSSRules cssDup).rules).map Prod.fst).count (str ".a") = 1 ∧
    groupLookup (groupRules (parseCSSRules cssDup).rules) (str ".a") (str "color") =
      some (str "blue") ∧
    optimizeCSS cssDup none =
      serializeGroups (groupRules (parseCSSRules cssDup).rules) ++
        catLists ((parseCSSRules cssDup).mediaRules.map (mediaEmit none)) :=
  duplicate_selector_merge cssDup (str ".a") (str "color:red") (str "color:blue")
    (str "color") (str "red") (str "blue") (by decide) (by decide) (by decide)

/-- Containing a single character as a substring is exactly membership. -/
theorem jsIncludes_single_iff (c : Char) (s : List Char) :
    jsIncludes s [c] = true ↔ c ∈ s := by
  induction s with
  | nil => simp [jsIncludes]
  | cons a as ih =>
    show (startsL (a :: as) [c] || jsIncludes as [c]) = true ↔ c ∈ a :: as
    rw [List.mem_cons, ← ih]
    show ((a == c && startsL as []) || jsIncludes as [c]) = true ↔ _
    cases hac : (a == c) with
    | true =>
      have : c = a := (beq_iff_eq.mp hac).symm
      simp [startsL, this]
    | false =>
      have : ¬(c = a) := fun he => by rw [he, beq_self_eq_true] at hac; cases hac
      simp [startsL, this]

/-- A successful open-tag match needs a `>` in the scanned suffix. -/
theorem openTry_some_gt {rest : List Char} {i : Nat} {r : List Char}
    (h : openTry rest i = some r) : '>' ∈ rest := by
  unfold openTry at h
  cases hd : rest.drop i with
  | nil => rw [hd] at h; cases h
  | cons y t =>
    cases t with
    | nil => rw [hd] at h; cases h
    | cons z t2 =>
      rw [hd] at h
      have h2 : (if (z == '>') = true then
          if (y == '/') = true then none else some t2 else none) = some r := h
      by_cases hz : (z == '>') = true
      · have : z = '>' := beq_iff_eq.mp hz
        subst this
        exact List.drop_subset i rest (hd ▸ List.mem_cons_of_mem _ (List.mem_cons_self _ _))
      · rw [if_neg hz] at h2; cases h2

/-- Without `>` in the suffix, every backtracking attempt of the open-tag
regex fails. -/
theorem openDescend_none {rest : List Char} (h : '>' ∉ rest) :
    ∀ i, openDescend rest i = none := by
  intro i
  induction i with
  | zero =>
    show openTry rest 0 = none
    cases ho : openTry rest 0 with
    | none => rfl
    | some r => exact absurd (openTry_some_gt ho) h
  | succ i ih =>
    show (match openTry rest (i + 1) with
      | some r => some r
      | none => openDescend rest i) = none
    cases ho : openTry rest (i + 1) with
    | none => exact ih
    | some r => exact absurd (openTry_some_gt ho) h

/-- Without `>` in the line, the open-tag regex cannot match at any position. -/
theorem tryOpenTagAt_none {s : List Char} (h : '>' ∉ s) : tryOpenTagAt s = none := by
  cases s with
  | nil => rfl
  | cons a s1 =>
    cases s1 with
    | nil =>
      show tryOpenTagAt [a] = none
      unfold tryOpenTagAt
      split
      · next l rest heq => simp at heq
      · rfl
    | cons b t =>
      unfold tryOpenTagAt
      split
      · next l rest heq =>
        injection heq with h1 h2
        injection h2 with h3 h4
        have hgt : '>' ∉ rest := by
          intro hin
          rw [← h4] at hin
          exact h (List.mem_cons_of_mem _ (List.mem_cons_of_mem _ hin))
        by_cases hl : l.isAlpha = true
        · rw [if_pos hl]
          exact openDescend_none hgt _
        · rw [if_neg hl]
      · rfl

/-- Without `>` in the line, the open-tag count is zero. -/
theorem countOpen_zero : ∀ (fuel : Nat) (s : List Char), '>' ∉ s →
    countTagsF tryOpenTagAt fuel s = 0 := by
  intro fuel
  induction fuel with
  | zero => intro s _; rfl
  | succ fuel ih =>
    intro s hs
    cases s with
    | nil => rfl
    | cons c rest =>
      show (match tryOpenTagAt (c :: rest) with
        | some after => countTagsF tryOpenTagAt fuel after + 1
        | none => countTagsF tryOpenTagAt fuel rest) = 0
      rw [tryOpenTagAt_none hs]
      exact ih rest (fun hin => hs (List.mem_cons_of_mem _ hin))

/-- The possible-unclosed-tag guard is unsatisfiable: it requires a line with
no `>`, but then all three tag-count regexes (each of which must consume a
literal `>`) count zero and the mismatch comparison fails. -/
theorem tagWarnGuard_false (line : List Char) : tagWarnGuard line = false := by
  unfold tagWarnGuard
  cases hgt : jsIncludes line (str ">") with
  | true => simp
  | false =>
    have hnot : '>' ∉ line := by
      intro hin
      have : jsIncludes line [('>' : Char)] = true := (jsIncludes_single_iff _ _).mpr hin
      rw [show [('>' : Char)] = str ">" from rfl, hgt] at this
      cases this
    have ho : countTagsF tryOpenTagAt (line.length + 1) line = 0 :=
      countOpen_zero _ line hnot
    simp [ho]

/-- C9: no input line can ever produce the possible-multi-line-element
structural warning — the guard demands a `>`-free line while a positive
open-tag count demands a `>` — and concretely the mismatched line `<div`
yields no warning at all. -/
theorem unclosed_tag_warning_unreachable :
    (∀ line : List Char, tagWarnGuard line = false) ∧
    (validateSyntax (str "<div") FileType.jsx).warnings = [] :=
  ⟨tagWarnGuard_false, by decide⟩

/-- Splitting at a character that does not occur yields the whole string. -/
theorem splitOnChar_of_not_mem {sep : Char} :
    ∀ {s : List Char}, sep ∉ s → splitOnChar sep s = [s] := by
  intro s
  induction s with
  | nil => intro _; rfl
  | cons c rest ih =>
    intro h
    have hc : ¬(c == sep) = true := by
      intro he
      exact h (beq_iff_eq.mp he ▸ List.mem_cons_self _ _)
    have hrest : sep ∉ rest := fun hin => h (List.mem_cons_of_mem _ hin)
    have hstep : splitOnChar sep (c :: rest) =
        (if (c == sep) = true then [] :: splitOnChar sep rest
         else
           match splitOnChar sep rest with
           | [] => [[c]]
           | a :: as => (c :: a) :: as) := rfl
    rw [hstep, if_neg hc, ih hrest]

/-- On newline-free input the validator is the single-line check battery. -/
theorem validateSyntax_single_line (line : List Char) (ft : FileType)
    (h : ('\n' : Char) ∉ line) :
    validateSyntax line ft =
      { errors := lineErrors ft 1 line, warnings := lineWarnings line ft 1 line } := by
  unfold validateSyntax splitLines
  rw [splitOnChar_of_not_mem h]
  show VResult.mk (catLists ([(0, line)].map fun p => lineErrors ft (p.1 + 1) p.2))
    (catLists ([(0, line)].map fun p => lineWarnings line ft (p.1 + 1) p.2)) = _
  simp [catLists]

/-- Any line containing the (case-sensitive) substring `for=` gets the
for-attribute error in the component dialects. -/
theorem forAttr_mem_lineErrors (ft : FileType) (line : List Char) (n : Nat)
    (hft : isComponentFam ft = true) (h : jsIncludes line (str "for=") = true) :
    ({ line := n, message := msgForAttr ft, dtype := str "attribute",
       suggestion := none } : Diag) ∈ lineErrors ft n line := by
  unfold lineErrors
  apply List.mem_append_left
  apply List.mem_append_left
  apply List.mem_append_left
  apply List.mem_append_right
  rw [hft, h]
  simp

/-- C10 counterexample: the line `<label htmlFor="x">` contains `htmlFor=`,
yet the validator reports no error at all on it: `includes('for=')` is
case-sensitive and `htmlFor=` only contains `For=`. -/
theorem htmlFor_line_not_flagged :
    jsIncludes lineHtmlFor (str "htmlFor=") = true ∧
    (validateSyntax lineHtmlFor FileType.jsx).errors = [] := by
  refine ⟨by decide, by decide⟩

/-- C10 amended: a component-dialect line that uses `htmlFor=` (and has no
lower-case `for=`) is not reported; the for-attribute error fires exactly on
the case-sensitive substring `for=`, which `htmlFor=` does not contain. -/
theorem for_attr_check_case_sensitive :
    (validateSyntax lineHtmlFor FileType.jsx).errors = [] ∧
    jsIncludes lineHtmlFor (str "for=") = false ∧
    ∀ (line : List Char) (ft : FileType), (ft = FileType.jsx ∨ ft = FileType.tsx) →
      ('\n' : Char) ∉ line → jsIncludes line (str "for=") = true →
      ({ line := 1, message := msgForAttr ft, dtype := str "attribute",
         suggestion := none } : Diag) ∈ (validateSyntax line ft).errors := by
  refine ⟨by decide, by decide, ?_⟩
  intro line ft hft hnl hfor
  have hcomp : isComponentFam ft = true := by
    cases hft with
    | inl h => rw [h]; rfl
    | inr h => rw [h]; rfl
  rw [validateSyntax_single_line line ft hnl]
  exact forAttr_mem_lineErrors ft line 1 hcomp hfor

/-- C10 witness: the markup line `<label for="x">` contains `for=` and the
validator reports the for-attribute error on it. -/
theorem for_attr_check_case_sensitive_witness :
    ({ line := 1, message := msgForAttr FileType.jsx, dtype := str "attribute",
       suggestion := none } : Diag) ∈ (validateSyntax lineFor FileType.jsx).errors :=
  for_attr_check_case_sensitive.2.2 lineFor FileType.jsx (Or.inl rfl) (by decide)
    (by decide)

end CodeGrammer
